import Mathlib

/- =====================================================================
   Verification development for the ollama-chatbot repository.

   Part 1 models the JS string primitives used by the TTS route handler
   (String.prototype.trim and split on newline) over List Char.
   Part 2 models the POST /api/tts route handler.
   Part 3 models the Chatbot component state transitions
   (generateTTS success path, stopTTS, sendMessage).
   ===================================================================== -/

/-- Whitespace characters stripped by the modelled JS trim
(space, tab, carriage return, newline). -/
def jsWs (c : Char) : Bool :=
  c == ' ' || c == '\t' || c == '\r' || c == '\n'

/-- Model of JS trimStart: drop leading whitespace. -/
def trimStart (s : List Char) : List Char := s.dropWhile jsWs

/-- Model of JS trimEnd: drop trailing whitespace. -/
def trimEnd (s : List Char) : List Char := (s.reverse.dropWhile jsWs).reverse

/-- Model of JS String.prototype.trim: strip whitespace at both ends. -/
def jsTrim (s : List Char) : List Char := trimEnd (trimStart s)

/-- The character is not a newline. -/
def notNl (c : Char) : Bool := !(c == '\n')

/-- Model of JS s.split with separator newline: always returns at least
one element; the empty string splits to a single empty line. -/
def splitLines : List Char → List (List Char)
  | [] => [[]]
  | c :: cs =>
    let r := splitLines cs
    if c = '\n' then [] :: r
    else (c :: r.headD []) :: r.tail

/-- The line the route handler feeds to JSON.parse on a zero exit code:
lines = stdout.trim().split newline, then the last element, trimmed.
splitLines never returns the empty list, so the default is never used. -/
def lastLine (stdout : List Char) : List Char :=
  jsTrim ((splitLines (jsTrim stdout)).getLastD [])

/-- A line containing at least one non-whitespace character. -/
def hasNonWs (l : List Char) : Bool := l.any (fun c => !(jsWs c))

/-- The final non-empty line of the subprocess standard output, reading
the spec: the last line containing a non-whitespace character.  A line
consisting only of whitespace is not counted as non-empty, so
whitespace-only output has no final non-empty line. -/
def finalNonEmptyLine (s : List Char) : Option (List Char) :=
  (splitLines s).reverse.find? hasNonWs

/- =====================================================================
   Part 2: the POST /api/tts route handler.
   ===================================================================== -/

/-- JS values as far as the route handler inspects them.  Objects and
arrays are opaque (the handler never looks inside them); numbers are
modelled as integers. -/
inductive JsVal where
  | undef
  | jsNull
  | jsBool (b : Bool)
  | jsNum (n : Int)
  | jsStr (s : List Char)
  | jsObj
  | jsArr
deriving DecidableEq

/-- JS truthiness test, negated: undefined, null, false, 0 and the
empty string are falsy; objects and arrays are truthy. -/
def falsy : JsVal → Bool
  | .undef => true
  | .jsNull => true
  | .jsBool b => !b
  | .jsNum n => n == 0
  | .jsStr s => s.isEmpty
  | .jsObj => false
  | .jsArr => false

/-- The typeof v === string test. -/
def isStringV : JsVal → Bool
  | .jsStr _ => true
  | _ => false

/-- The character content of a JS string value (empty for non-strings;
only ever used after the handler has checked isStringV). -/
def textString : JsVal → List Char
  | .jsStr s => s
  | _ => []

/-- voicePath = voice === default ? empty : voice or-else empty. -/
def voicePath (v : JsVal) : JsVal :=
  if v = .jsStr "default".toList then .jsStr []
  else if falsy v then .jsStr []
  else v

/-- Body of an HTTP response produced by the handler: either a JSON
value relayed from the subprocess, or an object with a single error
message field. -/
inductive RespBody (J : Type) where
  | json (v : J)
  | errMsg (msg : String)
deriving DecidableEq

/-- An HTTP response: status code and body. -/
structure Resp (J : Type) where
  status : Nat
  body : RespBody J
deriving DecidableEq

/-- Result of reading and destructuring the request body.
badJson: request.json() rejected (invalid JSON) — the outer catch fires.
nullJson: the body parsed to null, so destructuring text and voice
throws — the outer catch fires as well.
fields: destructuring succeeded, yielding the text and voice values
(undefined when absent). -/
inductive ReqBody where
  | badJson
  | nullJson
  | fields (text voice : JsVal)
deriving DecidableEq

/-- Outcome of the spawned subprocess: either the close event with an
exit code and the collected standard output, or the error event
(process failed to start). -/
inductive ProcEvent where
  | close (code : Int) (stdout : List Char)
  | startFail
deriving DecidableEq

/-- The close handler of the route: non-zero exit code maps to a 500
with a generic failure message; otherwise the last line of the trimmed
standard output is parsed as JSON (parse models JSON.parse, returning
none where JSON.parse would throw) and relayed with status 200, with a
parse failure mapping to a 500. -/
def onClose {J : Type} (parse : List Char → Option J) (code : Int)
    (stdout : List Char) : Resp J :=
  if code ≠ 0 then ⟨500, .errMsg "TTS generation failed"⟩
  else
    match parse (lastLine stdout) with
    | some v => ⟨200, .json v⟩
    | none => ⟨500, .errMsg "Invalid response from TTS service"⟩

/-- The POST /api/tts handler.  Returns the spawn arguments passed to
the subprocess (none when no subprocess is spawned) together with the
HTTP response, the latter determined by the subprocess event when a
subprocess was spawned. -/
def ttsPost {J : Type} (parse : List Char → Option J) (body : ReqBody)
    (ev : ProcEvent) : Option (List Char × JsVal) × Resp J :=
  match body with
  | .badJson => (none, ⟨500, .errMsg "Internal server error"⟩)
  | .nullJson => (none, ⟨500, .errMsg "Internal server error"⟩)
  | .fields text voice =>
    if falsy text || !(isStringV text) then
      (none, ⟨400, .errMsg "Text is required"⟩)
    else
      (some (textString text, voicePath voice),
        match ev with
        | .close code out => onClose parse code out
        | .startFail => ⟨500, .errMsg "Failed to start TTS service"⟩)

/- =====================================================================
   Part 3: Chatbot component state.
   ===================================================================== -/

/-- The observable state of an HTML audio element that the component
touches: whether it is paused and its current playback time. -/
structure AudioElem where
  paused : Bool
  currentTime : Nat
deriving DecidableEq

/-- The audio-related component state: the registry of audio elements
keyed by message id (audioRefs.current) and the id of the message
whose audio is currently playing (playingAudio), none when no audio is
marked playing. -/
structure AudioState where
  audioRefs : List (String × AudioElem)
  playingAudio : Option String
deriving DecidableEq

/-- Lookup in the registry (JS object property read). -/
def lookupRef (k : String) : List (String × AudioElem) → Option AudioElem
  | [] => none
  | (q, a) :: rest => if q = k then some a else lookupRef k rest

/-- Registry write (JS object property assignment): overwrite the
binding for the key, or append it. -/
def setRef (k : String) (v : AudioElem) :
    List (String × AudioElem) → List (String × AudioElem)
  | [] => [(k, v)]
  | (q, a) :: rest =>
    if q = k then (k, v) :: rest else (q, a) :: setRef k v rest

/-- Mutate the element bound to the key, if any. -/
def mapRef (k : String) (f : AudioElem → AudioElem) :
    List (String × AudioElem) → List (String × AudioElem)
  | [] => []
  | (q, a) :: rest =>
    if q = k then (q, f a) :: rest else (q, a) :: mapRef k f rest

/-- stopTTS(messageId): if an audio element is registered for the id,
pause it, reset its time to 0, and set playingAudio to null; otherwise
do nothing. -/
def stopTTS (messageId : String) (st : AudioState) : AudioState :=
  match lookupRef messageId st.audioRefs with
  | some _ =>
    { audioRefs :=
        mapRef messageId (fun a => { a with paused := true, currentTime := 0 })
          st.audioRefs,
      playingAudio := none }
  | none => st

/-- audioRefs.current[messageId] = audio in generateTTS. -/
def registerRef (messageId : String) (audio : AudioElem) (st : AudioState) :
    AudioState :=
  { st with audioRefs := setRef messageId audio st.audioRefs }

/-- The stop-any-currently-playing step of generateTTS: if playingAudio
is set (truthy) and differs from the new message id, stopTTS it. -/
def stopCurrentIfOther (messageId : String) (st : AudioState) : AudioState :=
  match st.playingAudio with
  | some pid => if pid ≠ messageId then stopTTS pid st else st
  | none => st

/-- setPlayingAudio(messageId). -/
def setPlaying (messageId : String) (st : AudioState) : AudioState :=
  { st with playingAudio := some messageId }

/-- audio.play() succeeding: the element for the id is no longer
paused. -/
def playRef (messageId : String) (st : AudioState) : AudioState :=
  { st with
    audioRefs := mapRef messageId (fun a => { a with paused := false })
      st.audioRefs }

/-- Outcome of the audio.play() attempt in generateTTS: it succeeds, or
it fails and the audio-context-resume retry succeeds, or it fails and
the retry also fails. -/
inductive PlayAttempt where
  | ok
  | failRetryOk
  | failRetryFail
deriving DecidableEq

/-- The success branch of generateTTS after the audio element has been
built for messageId: register it, stop any other currently playing
audio, mark messageId playing, then attempt playback.  On a playback
failure the catch clears playingAudio; the single retry after resuming
the audio context plays the element again without setting playingAudio
back. -/
def generateTTSSuccess (messageId : String) (audio : AudioElem)
    (attempt : PlayAttempt) (st : AudioState) : AudioState :=
  let stStopped := stopCurrentIfOther messageId (registerRef messageId audio st)
  let stMarked := setPlaying messageId stStopped
  match attempt with
  | .ok => playRef messageId stMarked
  | .failRetryOk => playRef messageId { stMarked with playingAudio := none }
  | .failRetryFail => { stMarked with playingAudio := none }

/-- A chat message. -/
inductive Role where
  | user
  | assistant
deriving DecidableEq

structure Message where
  id : String
  role : Role
  content : String
deriving DecidableEq

/-- Chat state touched by sendMessage. -/
structure ChatState where
  messages : List Message
  input : String
  loading : Bool
  selectedModel : String
  responseLength : Nat
  autoPlay : Bool
deriving DecidableEq

/-- Outcome of the fetch to the model generation API: a response
string, or a network failure (the fetch rejected). -/
inductive FetchResult where
  | ok (response : String)
  | failure
deriving DecidableEq

/-- The request sent to the model generation API. -/
structure GenRequest where
  model : String
  prompt : String
  stream : Bool
deriving DecidableEq

/-- The three response-length instruction strings. -/
def shortInstruction : String :=
  "Please provide a short, concise response (1-2 sentences). "

def mediumInstruction : String :=
  "Please provide a medium-length response (3-5 sentences). "

def longInstruction : String :=
  "Please provide a detailed, comprehensive response (6+ sentences). "

/-- The length instruction chosen from the response-length slider
value. -/
def lengthInstruction (lengthValue : Nat) : String :=
  if lengthValue ≤ 3 then shortInstruction
  else if lengthValue ≤ 7 then mediumInstruction
  else longInstruction

/-- Result of one sendMessage call: the successor chat state, the
request issued to the generation API (none when the guard made the
call a no-op), and the TTS generation scheduled by auto-play (response
text and message id), if any. -/
structure SendOutcome where
  state : ChatState
  request : Option GenRequest
  scheduledTTS : Option (String × String)
deriving DecidableEq

/-- JS String.prototype.trim on Lean strings, via the List Char
model. -/
def jsTrimStr (s : String) : String := String.mk (jsTrim s.data)

/-- The fixed error text appended on a network failure. -/
def ollamaErrText : String :=
  "Error: Failed to get response from Ollama. Make sure Ollama is running."

/-- sendMessage.  idU and idA are the two Date.now()-derived ids of the
user and assistant messages.  The guard returns unchanged state when
the trimmed input is empty or no model is selected.  Otherwise the
user message is appended, input cleared, loading set; the prompt is
the length instruction prepended to the literal input; on fetch
success the model response is appended as an assistant message and
auto-play may schedule a TTS generation; on fetch failure a fixed
error text is appended as an assistant message.  loading is reset in
the finally block. -/
def sendMessage (idU idA : String) (result : FetchResult) (st : ChatState) :
    SendOutcome :=
  if jsTrimStr st.input = "" ∨ st.selectedModel = "" then ⟨st, none, none⟩
  else
    let userMessage : Message := ⟨idU, .user, st.input⟩
    let st1 : ChatState :=
      { st with messages := st.messages ++ [userMessage],
                input := "", loading := true }
    let enhancedPrompt : String := lengthInstruction st.responseLength ++ st.input
    let req : GenRequest := ⟨st.selectedModel, enhancedPrompt, false⟩
    match result with
    | .ok resp =>
      let assistantMessage : Message := ⟨idA, .assistant, resp⟩
      ⟨{ st1 with messages := st1.messages ++ [assistantMessage],
                  loading := false },
        some req,
        if st.autoPlay then some (resp, idA) else none⟩
    | .failure =>
      ⟨{ st1 with messages := st1.messages ++ [⟨idA, .assistant, ollamaErrText⟩],
                  loading := false },
        some req, none⟩

/-- A sample JSON parser used to instantiate the abstract parse
function in witnesses: accepts exactly the two-character payload ok
(up to surrounding whitespace), as JSON.parse accepts its payload up
to surrounding whitespace. -/
def sampleParse (s : List Char) : Option Unit :=
  if jsTrim s = "ok".toList then some () else none

/- =====================================================================
   Lemmas about the string primitives.
   ===================================================================== -/

theorem splitLines_ne_nil (s : List Char) : splitLines s ≠ [] := by
  cases s with
  | nil => simp [splitLines]
  | cons c cs =>
    simp only [splitLines]
    split <;> simp

theorem splitLines_cons_nl (cs : List Char) :
    splitLines ('\n' :: cs) = [] :: splitLines cs := by
  simp [splitLines]

theorem splitLines_cons_other {c : Char} (h : c ≠ '\n') (cs : List Char) :
    splitLines (c :: cs) =
      (c :: (splitLines cs).headD []) :: (splitLines cs).tail := by
  simp [splitLines, h]

/-- A newline-free string splits to itself alone. -/
theorem splitLines_no_nl {s : List Char} (h : ∀ c ∈ s, notNl c = true) :
    splitLines s = [s] := by
  induction s with
  | nil => rfl
  | cons c cs ih =>
    have hc : c ≠ '\n' := by
      have := h c (List.mem_cons_self c cs)
      simp [notNl] at this
      exact this
    have ihr : splitLines cs = [cs] := ih fun x hx => h x (List.mem_cons_of_mem c hx)
    rw [splitLines_cons_other hc, ihr]
    rfl

/-- Splitting a string of the form seg ++ newline ++ rest, with seg
newline-free, peels off seg as the first line. -/
theorem splitLines_append_nl {seg : List Char} (rest : List Char)
    (h : ∀ c ∈ seg, notNl c = true) :
    splitLines (seg ++ '\n' :: rest) = seg :: splitLines rest := by
  induction seg with
  | nil => simpa using splitLines_cons_nl rest
  | cons c seg ih =>
    have hc : c ≠ '\n' := by
      have := h c (List.mem_cons_self c seg)
      simp [notNl] at this
      exact this
    have ihr := ih fun x hx => h x (List.mem_cons_of_mem c hx)
    rw [List.cons_append, splitLines_cons_other hc, ihr]
    rfl

theorem dropWhile_head_not {α : Type} {p : α → Bool} :
    ∀ {l : List α} {a : α} {t : List α}, l.dropWhile p = a :: t → p a = false := by
  intro l
  induction l with
  | nil => intro a t h; simp at h
  | cons x xs ih =>
    intro a t h
    rw [List.dropWhile_cons] at h
    by_cases hx : p x
    · simp [hx] at h
      exact ih h
    · simp [hx] at h
      rw [← h.1]
      simpa using hx

theorem mem_of_mem_dropWhile {α : Type} {p : α → Bool} :
    ∀ {l : List α} {a : α}, a ∈ l.dropWhile p → a ∈ l := by
  intro l
  induction l with
  | nil => intro a h; simp at h
  | cons x xs ih =>
    intro a h
    rw [List.dropWhile_cons] at h
    by_cases hx : p x
    · simp [hx] at h
      exact List.mem_cons_of_mem x (ih h)
    · simp [hx] at h
      simpa using h

theorem dropWhile_idem {α : Type} (p : α → Bool) (l : List α) :
    (l.dropWhile p).dropWhile p = l.dropWhile p := by
  cases h : l.dropWhile p with
  | nil => rfl
  | cons a t =>
    have ha : p a = false := dropWhile_head_not h
    simp [List.dropWhile_cons, ha]

/-- takeWhile stops no later than an element failing the predicate. -/
theorem takeWhile_append_stop {α : Type} {p : α → Bool} {a : α}
    (h : p a = false) (xs ys : List α) :
    (xs ++ a :: ys).takeWhile p = xs.takeWhile p := by
  induction xs with
  | nil => simp [List.takeWhile_cons, h]
  | cons x l ih =>
    simp only [List.cons_append, List.takeWhile_cons]
    by_cases hx : p x <;> simp [hx, ih]

theorem trimStart_idem (s : List Char) : trimStart (trimStart s) = trimStart s :=
  dropWhile_idem jsWs s

theorem trimStart_ws_append {w : List Char} (y : List Char)
    (h : ∀ c ∈ w, jsWs c = true) : trimStart (w ++ y) = trimStart y := by
  simp [trimStart, List.dropWhile_append_of_pos h]

theorem trimStart_eq_nil {s : List Char} (h : ∀ c ∈ s, jsWs c = true) :
    trimStart s = [] :=
  List.dropWhile_eq_nil_iff.mpr h

theorem trimEnd_eq_nil {s : List Char} (h : ∀ c ∈ s, jsWs c = true) :
    trimEnd s = [] := by
  have : s.reverse.dropWhile jsWs = [] :=
    List.dropWhile_eq_nil_iff.mpr fun c hc => h c (List.mem_reverse.mp hc)
  simp [trimEnd, this]

theorem trimEnd_idem (s : List Char) : trimEnd (trimEnd s) = trimEnd s := by
  simp [trimEnd, dropWhile_idem]

theorem trimEnd_cons (c : Char) (t : List Char) :
    trimEnd (c :: t) =
      if trimEnd t = [] then (if jsWs c then [] else [c]) else c :: trimEnd t := by
  have hrev : (c :: t).reverse = t.reverse ++ [c] := by simp
  by_cases he : trimEnd t = []
  · have he2 : t.reverse.dropWhile jsWs = [] := by
      have := congrArg List.reverse he
      simpa [trimEnd] using this
    rw [if_pos he]
    by_cases hc : jsWs c
    · rw [if_pos hc]
      unfold trimEnd
      rw [hrev, List.dropWhile_append]
      simp [he2, List.dropWhile_cons, hc]
    · rw [if_neg hc]
      unfold trimEnd
      rw [hrev, List.dropWhile_append]
      simp [he2, List.dropWhile_cons, hc]
  · have he2 : t.reverse.dropWhile jsWs ≠ [] := by
      intro h0
      exact he (by simp [trimEnd, h0])
    rw [if_neg he]
    unfold trimEnd
    rw [hrev, List.dropWhile_append, if_neg (by simpa [List.isEmpty_iff] using he2)]
    simp [List.reverse_append]

theorem trimStart_trimEnd_comm (s : List Char) :
    trimStart (trimEnd s) = trimEnd (trimStart s) := by
  induction s with
  | nil => rfl
  | cons c t ih =>
    by_cases hc : jsWs c = true
    · have h1 : trimStart (c :: t) = trimStart t := by
        simp [trimStart, List.dropWhile_cons, hc]
      rw [trimEnd_cons, h1, ← ih]
      by_cases he : trimEnd t = []
      · simp [he, hc]
      · simp only [he, ite_false, if_neg]
        have : trimStart (c :: trimEnd t) = trimStart (trimEnd t) := by
          simp [trimStart, List.dropWhile_cons, hc]
        simp [he, this]
    · have h1 : trimStart (c :: t) = c :: t := by
        simp [trimStart, List.dropWhile_cons, hc]
      rw [trimEnd_cons, h1]
      by_cases he : trimEnd t = []
      · simp only [he, ite_true, if_pos, hc, ite_false]
        simp [trimStart, List.dropWhile_cons, hc, trimEnd_cons, he]
      · simp only [he, ite_false, if_neg]
        have : trimStart (c :: trimEnd t) = c :: trimEnd t := by
          simp [trimStart, List.dropWhile_cons, hc]
        simp [this, trimEnd_cons, he, hc]

theorem jsTrim_nil : jsTrim [] = [] := rfl

theorem jsTrim_idem (s : List Char) : jsTrim (jsTrim s) = jsTrim s := by
  unfold jsTrim
  rw [trimStart_trimEnd_comm, trimEnd_idem, trimStart_idem]

theorem jsTrim_ws_append {w : List Char} (y : List Char)
    (h : ∀ c ∈ w, jsWs c = true) : jsTrim (w ++ y) = jsTrim y := by
  simp [jsTrim, trimStart_ws_append y h]

theorem jsTrim_trimEnd (s : List Char) : jsTrim (trimEnd s) = jsTrim s := by
  unfold jsTrim
  rw [trimStart_trimEnd_comm, trimEnd_idem]

theorem jsTrim_eq_nil {s : List Char} (h : ∀ c ∈ s, jsWs c = true) :
    jsTrim s = [] := by
  simp [jsTrim, trimStart_eq_nil h]
  rfl

theorem mem_of_mem_takeWhile {α : Type} {p : α → Bool} :
    ∀ {l : List α} {a : α}, a ∈ l.takeWhile p → a ∈ l := by
  intro l
  induction l with
  | nil => intro a h; simp at h
  | cons x xs ih =>
    intro a h
    rw [List.takeWhile_cons] at h
    by_cases hx : p x
    · simp [hx] at h
      rcases h with rfl | h2
      · exact List.mem_cons_self a xs
      · exact List.mem_cons_of_mem x (ih h2)
    · simp [hx] at h

/-- takeWhile ignores anything appended after an element failing the
predicate. -/
theorem takeWhile_append_of_ex {α : Type} {p : α → Bool} :
    ∀ {xs : List α} (ys : List α), (∃ a ∈ xs, p a = false) →
      (xs ++ ys).takeWhile p = xs.takeWhile p := by
  intro xs
  induction xs with
  | nil =>
    intro ys h
    rcases h with ⟨a, ha, _⟩
    simp at ha
  | cons x l ih =>
    intro ys h
    by_cases hx : p x
    · rcases h with ⟨a, ha, hpa⟩
      rcases List.mem_cons.mp ha with rfl | ha2
      · rw [hx] at hpa; cases hpa
      · simp [List.takeWhile_cons, hx, ih ys ⟨a, ha2, hpa⟩]
    · simp [List.takeWhile_cons, hx]

/-- Every string is newline-free or splits at its first newline into a
newline-free segment and a remainder. -/
theorem nl_split (s : List Char) :
    (∀ c ∈ s, notNl c = true) ∨
      ∃ seg rest, s = seg ++ '\n' :: rest ∧ (∀ c ∈ seg, notNl c = true) := by
  by_cases h : ∀ c ∈ s, notNl c = true
  · exact Or.inl h
  · right
    have hne : s.dropWhile notNl ≠ [] := by
      intro h0
      exact h (List.dropWhile_eq_nil_iff.mp h0)
    obtain ⟨a, t, ht⟩ := List.exists_cons_of_ne_nil hne
    have ha : notNl a = false := dropWhile_head_not ht
    have ha2 : a = '\n' := by
      simp [notNl] at ha
      exact ha
    refine ⟨s.takeWhile notNl, t, ?_, ?_⟩
    · conv_lhs => rw [← List.takeWhile_append_dropWhile notNl s]
      rw [ht, ha2]
    · intro c hc
      exact List.mem_takeWhile_imp hc

theorem getLastD_cons_of_ne_nil {α : Type} {l : List α} (a d : α)
    (h : l ≠ []) : (a :: l).getLastD d = l.getLastD d := by
  cases l with
  | nil => exact absurd rfl h
  | cons x xs => simp [List.getLastD_cons]

/-- The last element of the line split is the text after the last
newline. -/
theorem getLastD_splitLines (s : List Char) :
    (splitLines s).getLastD [] = (s.reverse.takeWhile notNl).reverse := by
  rcases nl_split s with h | ⟨seg, rest, hs, hseg⟩
  · rw [splitLines_no_nl h]
    have h2 : s.reverse.takeWhile notNl = s.reverse := by
      rw [List.takeWhile_eq_self_iff.mpr]
      intro x hx
      exact h x (List.mem_reverse.mp hx)
    simp [h2]
  · have hlen : rest.length < s.length := by
      rw [hs]
      simp [List.length_append]
      omega
    rw [hs]
    rw [splitLines_append_nl rest hseg]
    have h1 : (seg ++ '\n' :: rest).reverse = rest.reverse ++ '\n' :: seg.reverse := by
      simp
    rw [h1, takeWhile_append_stop (by decide) rest.reverse seg.reverse]
    rw [getLastD_cons_of_ne_nil seg [] (splitLines_ne_nil rest)]
    exact getLastD_splitLines rest
termination_by s.length

/-- Characters of a string are newlines or characters of its lines. -/
theorem mem_splitLines_of_mem :
    ∀ {s : List Char} {c : Char}, c ∈ s →
      c = '\n' ∨ ∃ l ∈ splitLines s, c ∈ l := by
  intro s
  induction s with
  | nil => intro c hc; simp at hc
  | cons x xs ih =>
    intro c hc
    by_cases hx : x = '\n'
    · subst hx
      rcases List.mem_cons.mp hc with rfl | hc2
      · exact Or.inl rfl
      · rcases ih hc2 with h | ⟨l, hl, hcl⟩
        · exact Or.inl h
        · refine Or.inr ⟨l, ?_, hcl⟩
          rw [splitLines_cons_nl]
          exact List.mem_cons_of_mem [] hl
    · obtain ⟨hd, tl, hxs⟩ : ∃ hd tl, splitLines xs = hd :: tl := by
        rcases hsp : splitLines xs with _ | ⟨hd, tl⟩
        · exact absurd hsp (splitLines_ne_nil xs)
        · exact ⟨hd, tl, rfl⟩
      rcases List.mem_cons.mp hc with rfl | hc2
      · refine Or.inr ⟨c :: hd, ?_, List.mem_cons_self _ _⟩
        rw [splitLines_cons_other hx, hxs]
        simp
      · rcases ih hc2 with h | ⟨l, hl, hcl⟩
        · exact Or.inl h
        · rw [hxs] at hl
          rcases List.mem_cons.mp hl with rfl | hl2
          · refine Or.inr ⟨x :: l, ?_, List.mem_cons_of_mem x hcl⟩
            rw [splitLines_cons_other hx, hxs]
            simp
          · refine Or.inr ⟨l, ?_, hcl⟩
            rw [splitLines_cons_other hx, hxs]
            simp
            exact Or.inr hl2

/-- Characters of the lines of a string are characters of the string. -/
theorem mem_of_mem_splitLines :
    ∀ {s l : List Char} {c : Char}, l ∈ splitLines s → c ∈ l → c ∈ s := by
  intro s
  induction s with
  | nil =>
    intro l c hl hc
    simp [splitLines] at hl
    subst hl
    simp at hc
  | cons x xs ih =>
    intro l c hl hc
    by_cases hx : x = '\n'
    · subst hx
      rw [splitLines_cons_nl] at hl
      rcases List.mem_cons.mp hl with rfl | hl2
      · simp at hc
      · exact List.mem_cons_of_mem _ (ih hl2 hc)
    · obtain ⟨hd, tl, hxs⟩ : ∃ hd tl, splitLines xs = hd :: tl := by
        rcases hsp : splitLines xs with _ | ⟨hd, tl⟩
        · exact absurd hsp (splitLines_ne_nil xs)
        · exact ⟨hd, tl, rfl⟩
      rw [splitLines_cons_other hx, hxs] at hl
      simp only [List.headD_cons, List.tail_cons] at hl
      rcases List.mem_cons.mp hl with rfl | hl2
      · rcases List.mem_cons.mp hc with rfl | hc2
        · exact List.mem_cons_self _ _
        · refine List.mem_cons_of_mem _ (ih ?_ hc2)
          rw [hxs]
          exact List.mem_cons_self _ _
      · refine List.mem_cons_of_mem _ (ih ?_ hc)
        rw [hxs]
        exact List.mem_cons_of_mem _ hl2

theorem hasNonWs_false_iff (l : List Char) :
    hasNonWs l = false ↔ ∀ c ∈ l, jsWs c = true := by
  simp [hasNonWs]

theorem hasNonWs_true_iff (l : List Char) :
    hasNonWs l = true ↔ ∃ c ∈ l, jsWs c = false := by
  simp [hasNonWs]

/-- Formula for the parsed line: trim the text after the last newline
of the fully trimmed output. -/
theorem lastLine_formula (s : List Char) :
    lastLine s =
      jsTrim ((((trimStart s).reverse.dropWhile jsWs).takeWhile notNl).reverse) := by
  unfold lastLine
  rw [getLastD_splitLines]
  have h : (jsTrim s).reverse = (trimStart s).reverse.dropWhile jsWs := by
    simp [jsTrim, trimEnd]
  rw [h]

/-- The leading trim of the output is irrelevant to the parsed line. -/
theorem lastLine_drop_leading (s : List Char) :
    lastLine s = jsTrim (((s.reverse.dropWhile jsWs).takeWhile notNl).reverse) := by
  rw [lastLine_formula]
  have hsplit : s = s.takeWhile jsWs ++ trimStart s :=
    (List.takeWhile_append_dropWhile jsWs s).symm
  have hwws : ∀ c ∈ (s.takeWhile jsWs).reverse, jsWs c = true := by
    intro c hc
    exact List.mem_takeWhile_imp (List.mem_reverse.mp hc)
  by_cases ht : trimStart s = []
  · rw [ht]
    have hrev : s.reverse = (s.takeWhile jsWs).reverse := by
      conv_lhs => rw [hsplit]
      rw [ht]
      simp
    rw [hrev, List.dropWhile_eq_nil_iff.mpr hwws]
    simp
  · have hrev : s.reverse = (trimStart s).reverse ++ (s.takeWhile jsWs).reverse := by
      conv_lhs => rw [hsplit]
      simp
    obtain ⟨a, t0, hat⟩ := List.exists_cons_of_ne_nil ht
    have ha : jsWs a = false := dropWhile_head_not hat
    have hD : (trimStart s).reverse.dropWhile jsWs ≠ [] := by
      intro h0
      have := List.dropWhile_eq_nil_iff.mp h0 a
        (List.mem_reverse.mpr (by rw [hat]; exact List.mem_cons_self a t0))
      rw [ha] at this
      cases this
    rw [hrev, List.dropWhile_append, if_neg (by simpa [List.isEmpty_iff] using hD)]
    set D := (trimStart s).reverse.dropWhile jsWs with hDdef
    by_cases hnl : ∃ x ∈ D, notNl x = false
    · rw [takeWhile_append_of_ex _ hnl]
    · have hall : ∀ x ∈ D, notNl x = true := by
        intro x hx
        by_contra hxn
        exact hnl ⟨x, hx, by simpa using hxn⟩
      rw [List.takeWhile_append_of_pos hall, List.takeWhile_eq_self_iff.mpr hall]
      have huws : ∀ c ∈ ((s.takeWhile jsWs).reverse.takeWhile notNl).reverse,
          jsWs c = true := by
        intro c hc
        exact hwws c (mem_of_mem_takeWhile (List.mem_reverse.mp hc))
      rw [List.reverse_append, jsTrim_ws_append D.reverse huws]

/-- Whitespace-only output makes the parsed line empty. -/
theorem lastLine_of_all_ws {s : List Char} (h : ∀ c ∈ s, jsWs c = true) :
    lastLine s = [] := by
  unfold lastLine
  rw [jsTrim_eq_nil h]
  rfl


/-- Central lemma: when the output has a final non-empty line, the
line the handler parses is exactly that line, trimmed. -/
theorem lastLine_of_finalNonEmptyLine (s : List Char) :
    ∀ L, finalNonEmptyLine s = some L → lastLine s = jsTrim L := by
  rcases nl_split s with h | ⟨seg, rest, hs, hseg⟩
  · intro L hL
    unfold finalNonEmptyLine at hL
    rw [splitLines_no_nl h] at hL
    have hLs : L = s := by
      have := List.mem_of_find?_eq_some hL
      simpa using this
    rw [hLs]
    rw [lastLine_drop_leading]
    have hsub : ∀ c ∈ s.reverse.dropWhile jsWs, notNl c = true := by
      intro c hc
      exact h c (List.mem_reverse.mp (mem_of_mem_dropWhile hc))
    rw [List.takeWhile_eq_self_iff.mpr hsub]
    have h2 : (s.reverse.dropWhile jsWs).reverse = trimEnd s := rfl
    rw [h2, jsTrim_trimEnd]
  · intro L hL
    have hlen : rest.length < s.length := by
      rw [hs]
      simp [List.length_append]
      omega
    unfold finalNonEmptyLine at hL
    rw [hs, splitLines_append_nl rest hseg] at hL
    rw [List.reverse_cons, List.find?_append] at hL
    rcases hA : List.find? hasNonWs (splitLines rest).reverse with _ | L0
    · -- no non-blank line in rest: the final non-empty line is seg
      rw [hA, Option.none_or] at hL
      have hLs : L = seg := by
        have := List.mem_of_find?_eq_some hL
        simpa using this
      rw [hLs]
      have hrestws : ∀ c ∈ rest, jsWs c = true := by
        intro c hc
        rcases mem_splitLines_of_mem hc with rfl | ⟨l, hl, hcl⟩
        · decide
        · have hblank : hasNonWs l = false := by
            have := List.find?_eq_none.mp hA l (List.mem_reverse.mpr hl)
            simpa using this
          exact (hasNonWs_false_iff l).mp hblank c hcl
      rw [hs, lastLine_drop_leading]
      have hrev : (seg ++ '\n' :: rest).reverse =
          rest.reverse ++ '\n' :: seg.reverse := by simp
      rw [hrev]
      have hrws : ∀ c ∈ rest.reverse, jsWs c = true := by
        intro c hc
        exact hrestws c (List.mem_reverse.mp hc)
      rw [List.dropWhile_append_of_pos hrws, List.dropWhile_cons_of_pos (by decide)]
      have hsub : ∀ c ∈ seg.reverse.dropWhile jsWs, notNl c = true := by
        intro c hc
        exact hseg c (List.mem_reverse.mp (mem_of_mem_dropWhile hc))
      rw [List.takeWhile_eq_self_iff.mpr hsub]
      have h2 : (seg.reverse.dropWhile jsWs).reverse = trimEnd seg := rfl
      rw [h2, jsTrim_trimEnd]
    · -- the final non-empty line is inside rest
      rw [hA] at hL
      have hL0 : L0 = L := by
        simpa [Option.or] using hL
      rw [← hL0]
      have hrec : lastLine rest = jsTrim L0 :=
        lastLine_of_finalNonEmptyLine rest L0 hA
      rw [hs, lastLine_drop_leading]
      have hrev : (seg ++ '\n' :: rest).reverse =
          rest.reverse ++ '\n' :: seg.reverse := by simp
      rw [hrev]
      have hNW : hasNonWs L0 = true := List.find?_some hA
      obtain ⟨c0, hc0L, hc0⟩ := (hasNonWs_true_iff L0).mp hNW
      have hc0rest : c0 ∈ rest :=
        mem_of_mem_splitLines (List.mem_reverse.mp (List.mem_of_find?_eq_some hA)) hc0L
      have hD : rest.reverse.dropWhile jsWs ≠ [] := by
        intro h0
        have := List.dropWhile_eq_nil_iff.mp h0 c0 (List.mem_reverse.mpr hc0rest)
        rw [hc0] at this
        cases this
      rw [List.dropWhile_append, if_neg (by simpa [List.isEmpty_iff] using hD)]
      rw [takeWhile_append_stop (by decide) (rest.reverse.dropWhile jsWs) seg.reverse]
      rw [lastLine_drop_leading] at hrec
      exact hrec
termination_by s.length

theorem lookupRef_setRef_ne {A B : String} (hne : A ≠ B) (v : AudioElem) :
    ∀ l : List (String × AudioElem), lookupRef A (setRef B v l) = lookupRef A l := by
  intro l
  induction l with
  | nil => simp [setRef, lookupRef, Ne.symm hne]
  | cons p rest ih =>
    obtain ⟨q, a⟩ := p
    by_cases hq : q = B
    · subst hq
      simp [setRef, lookupRef, Ne.symm hne]
    · simp [setRef, lookupRef, hq, ih]

theorem lookupRef_mapRef (k : String) (f : AudioElem → AudioElem) :
    ∀ l : List (String × AudioElem),
      lookupRef k (mapRef k f l) = (lookupRef k l).map f := by
  intro l
  induction l with
  | nil => simp [mapRef, lookupRef]
  | cons p rest ih =>
    obtain ⟨q, a⟩ := p
    by_cases hq : q = k
    · subst hq
      simp [mapRef, lookupRef]
    · simp [mapRef, lookupRef, hq, ih]

/-- sampleParse is insensitive to surrounding whitespace, as JSON.parse
is. -/
theorem sampleParse_trim : ∀ t, sampleParse (jsTrim t) = sampleParse t := by
  intro t
  simp [sampleParse, jsTrim_idem]

/- =====================================================================
   Claim theorems.
   ===================================================================== -/

/-- C1: for every TTS subprocess run that exits with code 0 and whose
final non-empty line of standard output is valid JSON, the POST
/api/tts handler relays that parsed JSON object verbatim as the
response body, ignoring earlier diagnostic lines. -/
theorem c1_relay_final_json_line {J : Type} (parse : List Char → Option J)
    (text voice : JsVal) (out L : List Char) (v : J)
    (htruthy : falsy text = false) (hstr : isStringV text = true)
    (hinv : ∀ t, parse (jsTrim t) = parse t)
    (hfinal : finalNonEmptyLine out = some L)
    (hparse : parse L = some v) :
    (ttsPost parse (.fields text voice) (.close 0 out)).2 = ⟨200, .json v⟩ := by
  have hlast : lastLine out = jsTrim L := lastLine_of_finalNonEmptyLine out L hfinal
  simp [ttsPost, htruthy, hstr, onClose, hlast, hinv L, hparse]

/-- C2: for every TTS subprocess run that exits with a non-zero code,
the handler responds 500 with the TTS generation failed error, for all
standard-output contents. -/
theorem c2_nonzero_exit_500 {J : Type} (parse : List Char → Option J)
    (text voice : JsVal) (code : Int) (out : List Char)
    (htruthy : falsy text = false) (hstr : isStringV text = true)
    (hcode : code ≠ 0) :
    (ttsPost parse (.fields text voice) (.close code out)).2 =
      ⟨500, .errMsg "TTS generation failed"⟩ := by
  simp [ttsPost, htruthy, hstr, onClose, hcode]

/-- C3: for every TTS subprocess run that exits with code 0 but whose
final non-empty line of standard output is not valid JSON, the handler
responds 500 with the invalid-response error. -/
theorem c3_bad_final_line_500 {J : Type} (parse : List Char → Option J)
    (text voice : JsVal) (out L : List Char)
    (htruthy : falsy text = false) (hstr : isStringV text = true)
    (hinv : ∀ t, parse (jsTrim t) = parse t)
    (hfinal : finalNonEmptyLine out = some L)
    (hparse : parse L = none) :
    (ttsPost parse (.fields text voice) (.close 0 out)).2 =
      ⟨500, .errMsg "Invalid response from TTS service"⟩ := by
  have hlast : lastLine out = jsTrim L := lastLine_of_finalNonEmptyLine out L hfinal
  simp [ttsPost, htruthy, hstr, onClose, hlast, hinv L, hparse]

/-- C4: for every request whose text field is missing, the empty
string, or not a string, the handler responds 400 with the
text-required error and spawns no subprocess, whatever the subprocess
event would have been. -/
theorem c4_text_required_400 {J : Type} (parse : List Char → Option J)
    (text voice : JsVal) (ev : ProcEvent)
    (h : text = .undef ∨ text = .jsStr [] ∨ isStringV text = false) :
    ttsPost parse (.fields text voice) ev =
      (none, ⟨400, .errMsg "Text is required"⟩) := by
  rcases h with rfl | rfl | h3
  · simp [ttsPost, falsy]
  · simp [ttsPost, falsy]
  · simp [ttsPost, h3]

/-- C9: for every request whose body is not valid JSON, the handler
responds 500 with the internal-server-error message, not with the 400
validation error. -/
theorem c9_bad_body_internal_error {J : Type} (parse : List Char → Option J)
    (ev : ProcEvent) :
    ttsPost parse .badJson ev = (none, ⟨500, .errMsg "Internal server error"⟩) ∧
    (ttsPost parse .badJson ev).2.status ≠ 400 := by
  refine ⟨rfl, ?_⟩
  simp [ttsPost]

/-- C10: for every TTS subprocess run that exits with code 0 but whose
standard output is empty or whitespace-only (so it has no final
non-empty line), the handler responds 500 with the invalid-response
error. -/
theorem c10_blank_output_500 {J : Type} (parse : List Char → Option J)
    (text voice : JsVal) (out : List Char)
    (htruthy : falsy text = false) (hstr : isStringV text = true)
    (hnil : parse [] = none)
    (hws : ∀ c ∈ out, jsWs c = true) :
    (ttsPost parse (.fields text voice) (.close 0 out)).2 =
      ⟨500, .errMsg "Invalid response from TTS service"⟩ := by
  have hlast : lastLine out = [] := lastLine_of_all_ws hws
  simp [ttsPost, htruthy, hstr, onClose, hlast, hnil]

/-- C5: starting playback for message B while message A is playing
stops A (paused, time 0) before the playing pointer is set to B, and
the pointer afterwards designates B alone; the final state of the
successful play path factors through exactly these steps. -/
theorem c5_stop_before_switch (st : AudioState) (A B : String)
    (a audio : AudioElem)
    (hplay : st.playingAudio = some A) (hne : A ≠ B)
    (hlook : lookupRef A st.audioRefs = some a) :
    lookupRef A (stopCurrentIfOther B (registerRef B audio st)).audioRefs =
      some ⟨true, 0⟩ ∧
    (stopCurrentIfOther B (registerRef B audio st)).playingAudio = none ∧
    (setPlaying B (stopCurrentIfOther B (registerRef B audio st))).playingAudio =
      some B ∧
    lookupRef A
        (setPlaying B (stopCurrentIfOther B (registerRef B audio st))).audioRefs =
      some ⟨true, 0⟩ ∧
    generateTTSSuccess B audio .ok st =
      playRef B (setPlaying B (stopCurrentIfOther B (registerRef B audio st))) := by
  have hlook1 : lookupRef A (registerRef B audio st).audioRefs = some a := by
    simpa [registerRef] using (lookupRef_setRef_ne hne audio st.audioRefs).trans hlook
  have hstop : stopCurrentIfOther B (registerRef B audio st) =
      stopTTS A (registerRef B audio st) := by
    simp [stopCurrentIfOther, registerRef, hplay, hne]
  have hstopped : lookupRef A (stopTTS A (registerRef B audio st)).audioRefs =
      some ⟨true, 0⟩ := by
    simp [stopTTS, hlook1, lookupRef_mapRef]
  have hnone : (stopTTS A (registerRef B audio st)).playingAudio = none := by
    simp [stopTTS, hlook1]
  refine ⟨by rw [hstop]; exact hstopped, by rw [hstop]; exact hnone, rfl, ?_, rfl⟩
  rw [hstop]
  simpa [setPlaying] using hstopped

/-- C6: for every response-length value the prompt sent to the model
is exactly one length instruction prepended to the literal input:
short for 1-3, medium for 4-7, long for 8-10. -/
theorem c6_length_instruction (st : ChatState) (idU idA : String)
    (result : FetchResult)
    (hinput : ¬ jsTrimStr st.input = "") (hmodel : ¬ st.selectedModel = "")
    (hlo : 1 ≤ st.responseLength) (hhi : st.responseLength ≤ 10) :
    (sendMessage idU idA result st).request =
      some ⟨st.selectedModel, lengthInstruction st.responseLength ++ st.input, false⟩ ∧
    (st.responseLength ≤ 3 →
      lengthInstruction st.responseLength = shortInstruction) ∧
    (4 ≤ st.responseLength → st.responseLength ≤ 7 →
      lengthInstruction st.responseLength = mediumInstruction) ∧
    (8 ≤ st.responseLength →
      lengthInstruction st.responseLength = longInstruction) := by
  refine ⟨?_, ?_, ?_, ?_⟩
  · cases result <;> simp [sendMessage, hinput, hmodel]
  · intro h3
    simp [lengthInstruction, h3]
  · intro h4 h7
    have h3 : ¬ st.responseLength ≤ 3 := by omega
    simp [lengthInstruction, h3, h7]
  · intro h8
    have h3 : ¬ st.responseLength ≤ 3 := by omega
    have h7 : ¬ st.responseLength ≤ 7 := by omega
    simp [lengthInstruction, h3, h7]

/-- C7: when the model-generation fetch fails, the conversation gains
the optimistic user message and exactly one new assistant message
carrying the fixed Ollama error text, and loading is false when the
call completes. -/
theorem c7_fetch_failure_error_message (st : ChatState) (idU idA : String)
    (hinput : ¬ jsTrimStr st.input = "") (hmodel : ¬ st.selectedModel = "") :
    (sendMessage idU idA .failure st).state.messages =
      st.messages ++
        [⟨idU, .user, st.input⟩, ⟨idA, .assistant, ollamaErrText⟩] ∧
    (sendMessage idU idA .failure st).state.loading = false := by
  simp [sendMessage, hinput, hmodel]

/-- C8 as amended: stopTTS pauses and rewinds the audio resource for
the id when one exists and then clears the playing pointer
unconditionally, even when the pointer designated a different message;
when no resource exists for the id, the whole state, pointer included,
is unchanged. -/
theorem c8_stop_clears_pointer_unconditionally (id : String) (st : AudioState) :
    (lookupRef id st.audioRefs ≠ none →
      stopTTS id st =
        { audioRefs :=
            mapRef id (fun a => { a with paused := true, currentTime := 0 })
              st.audioRefs,
          playingAudio := none }) ∧
    (lookupRef id st.audioRefs = none → stopTTS id st = st) := by
  constructor
  · intro h
    rcases hl : lookupRef id st.audioRefs with _ | a
    · exact absurd hl h
    · simp [stopTTS, hl]
  · intro h
    simp [stopTTS, h]

/-- The concrete state used to refute the original C8 reading and to
witness the amended one: an audio resource registered for message a
while the playing pointer designates message b. -/
def c8State : AudioState :=
  ⟨[("a", ⟨false, 5⟩)], some "b"⟩

/-- C8 counterexample: the pointer designated message b, yet stopTTS
on message a clears it instead of leaving it unchanged. -/
theorem c8_counterexample :
    c8State.playingAudio = some "b" ∧
    lookupRef "a" c8State.audioRefs = some ⟨false, 5⟩ ∧
    (stopTTS "a" c8State).playingAudio = none ∧
    (stopTTS "a" c8State).playingAudio ≠ c8State.playingAudio := by
  refine ⟨rfl, by decide, by decide, by decide⟩

/-- Witness for C1 at a concrete run: a diagnostic line followed by a
parsable final line, relayed with status 200. -/
theorem c1_witness :
    falsy (JsVal.jsStr "hi".toList) = false ∧
    finalNonEmptyLine ("noise\nok\n ".toList) = some ("ok".toList) ∧
    sampleParse ("ok".toList) = some () ∧
    (ttsPost sampleParse (.fields (.jsStr "hi".toList) .undef)
        (.close 0 ("noise\nok\n ".toList))).2 = ⟨200, .json ()⟩ :=
  ⟨by decide, by decide, by decide,
    c1_relay_final_json_line sampleParse (.jsStr "hi".toList) .undef
      ("noise\nok\n ".toList) ("ok".toList) ()
      (by decide) (by decide) sampleParse_trim (by decide) (by decide)⟩

/-- Witness for C2 at a concrete run with exit code 1. -/
theorem c2_witness :
    (1 : Int) ≠ 0 ∧
    (ttsPost sampleParse (.fields (.jsStr "hi".toList) .undef)
        (.close 1 ("ok".toList))).2 = ⟨500, .errMsg "TTS generation failed"⟩ :=
  ⟨by decide,
    c2_nonzero_exit_500 sampleParse (.jsStr "hi".toList) .undef 1 ("ok".toList)
      (by decide) (by decide) (by decide)⟩

/-- Witness for C3 at a concrete run whose final non-empty line does
not parse, although an earlier line would have. -/
theorem c3_witness :
    finalNonEmptyLine ("ok\nnope".toList) = some ("nope".toList) ∧
    sampleParse ("nope".toList) = none ∧
    (ttsPost sampleParse (.fields (.jsStr "hi".toList) .undef)
        (.close 0 ("ok\nnope".toList))).2 =
      ⟨500, .errMsg "Invalid response from TTS service"⟩ :=
  ⟨by decide, by decide,
    c3_bad_final_line_500 sampleParse (.jsStr "hi".toList) .undef
      ("ok\nnope".toList) ("nope".toList)
      (by decide) (by decide) sampleParse_trim (by decide) (by decide)⟩

/-- Witness for C4 with a missing text field. -/
theorem c4_witness :
    (JsVal.undef = JsVal.undef ∨ JsVal.undef = JsVal.jsStr [] ∨
      isStringV JsVal.undef = false) ∧
    ttsPost sampleParse (.fields .undef .undef) .startFail =
      (none, ⟨400, .errMsg "Text is required"⟩) :=
  ⟨Or.inl rfl,
    c4_text_required_400 sampleParse .undef .undef .startFail (Or.inl rfl)⟩

/-- Witness for C5: while message a is playing, playback starts for
message b; a ends up paused at time 0 and the pointer designates b. -/
theorem c5_witness :
    ("a" : String) ≠ "b" ∧
    (setPlaying "b" (stopCurrentIfOther "b" (registerRef "b" ⟨true, 0⟩
        (AudioState.mk [("a", ⟨false, 3⟩)] (some "a"))))).playingAudio = some "b" ∧
    lookupRef "a" (setPlaying "b" (stopCurrentIfOther "b" (registerRef "b" ⟨true, 0⟩
        (AudioState.mk [("a", ⟨false, 3⟩)] (some "a"))))).audioRefs =
      some ⟨true, 0⟩ := by
  have h := c5_stop_before_switch (AudioState.mk [("a", ⟨false, 3⟩)] (some "a"))
    "a" "b" ⟨false, 3⟩ ⟨true, 0⟩ rfl (by decide) (by decide)
  exact ⟨by decide, h.2.2.1, h.2.2.2.1⟩

/-- Witness for C6 at slider value 5: the medium instruction is
prepended. -/
theorem c6_witness :
    jsTrimStr "hello" ≠ "" ∧
    (sendMessage "1" "2" (.ok "resp")
        (ChatState.mk [] "hello" false "llama" 5 false)).request =
      some ⟨"llama", mediumInstruction ++ "hello", false⟩ := by
  have h := c6_length_instruction (ChatState.mk [] "hello" false "llama" 5 false)
    "1" "2" (.ok "resp") (by decide) (by decide) (by decide) (by decide)
  refine ⟨by decide, ?_⟩
  rw [h.1, h.2.2.1 (by decide) (by decide)]

/-- Witness for C7 at a concrete failing call. -/
theorem c7_witness :
    jsTrimStr "hi" ≠ "" ∧
    (sendMessage "1" "2" .failure
        (ChatState.mk [] "hi" false "m" 5 false)).state.messages =
      [⟨"1", .user, "hi"⟩, ⟨"2", .assistant, ollamaErrText⟩] ∧
    (sendMessage "1" "2" .failure
        (ChatState.mk [] "hi" false "m" 5 false)).state.loading = false := by
  have h := c7_fetch_failure_error_message
    (ChatState.mk [] "hi" false "m" 5 false) "1" "2" (by decide) (by decide)
  exact ⟨by decide, by simpa using h.1, h.2⟩

/-- Witness for the amended C8 at the concrete state: the resource is
stopped and the pointer is cleared even though it designated another
message. -/
theorem c8_amended_witness :
    lookupRef "a" c8State.audioRefs ≠ none ∧
    stopTTS "a" c8State = ⟨[("a", ⟨true, 0⟩)], none⟩ := by
  have h := (c8_stop_clears_pointer_unconditionally "a" c8State).1 (by decide)
  exact ⟨by decide, by rw [h]; decide⟩

/-- Witness for C10 at a concrete whitespace-only output. -/
theorem c10_witness :
    (∀ c ∈ (" \t\n".toList), jsWs c = true) ∧
    sampleParse [] = none ∧
    (ttsPost sampleParse (.fields (.jsStr "hi".toList) .undef)
        (.close 0 (" \t\n".toList))).2 =
      ⟨500, .errMsg "Invalid response from TTS service"⟩ :=
  ⟨by decide, by decide,
    c10_blank_output_500 sampleParse (.jsStr "hi".toList) .undef (" \t\n".toList)
      (by decide) (by decide) (by decide) (by decide)⟩
